import Mathlib

/-!
Shallow embedding of `src/src/AtomSpace/ForeachChaseLink.h`: the
`PrivateUseOnlyChaseLink` template class (`follow_link`, `follow_link_lh`,
`find_link_type`, `pursue_link`) and the four free wrapper functions
(`follow_binary_link` and `backtrack_binary_link`, in the plain and the
link-handle callback overloads).

Modelling conventions.

* A `Handle` is a natural number; a `Type` tag (C++ `Type`) is a natural
  number.  Member positions (`from`/`to`, C++ `int`) and the running counter
  `cnt` are integers, since the C++ code uses signed `int` and initialises
  `cnt` to `-1`.
* An `Atom` carries its type tag, its outgoing set (the ordered list of the
  member handles of a link; empty for a node) and its incoming set (the
  handles of the links that contain it).  A `Store` maps handles to atoms:
  `Store.getAtom` plays the role of `TLB::getAtom`, a handle absent from the
  store is unresolvable (`NULL`).  `TLB::getHandle` is the identity on this
  representation: a live atom is identified with its handle, so C++ pointer
  equality of member atoms coincides with handle equality (the TLB invariant:
  a handle resolves to exactly one live atom).
* Modelled from the spec: the iteration services `foreach_incoming_atom` and
  `foreach_outgoing_atom` come from `Foreach.h`, which is not among the
  sources.  Per the spec they enumerate the incoming set, respectively the
  ordered outgoing set, invoking the per-element callback on each element in
  order, stop as soon as that callback returns `true`, and report whether
  they were stopped early.  An incoming entry always references a live atom,
  so an unresolvable incoming handle is simply not produced.
* The member-function-pointer callbacks `bool (T::*)(Handle)` and
  `bool (T::*)(Handle, Handle)` together with the `T *user_data` receiver
  are modelled as plain functions `Nat → Bool` and `Nat → Nat → Bool`.
* The runs are instrumented: besides the boolean result of the C++ function,
  a run also yields the list of candidate links examined by
  `find_link_type` and the list of `(target, link)` pairs handed to the user
  callback, because the observable behaviour of the C++ code is exactly the
  sequence of those callback invocations.
-/

/-- An atom of the store: its type tag, its outgoing set (ordered member
handles; meaningful for links) and its incoming set (handles of the links
containing it). -/
structure Atom where
  atype : Nat
  out : List Nat
  inc : List Nat
deriving DecidableEq

/-- The handle-to-atom map (the role of the TLB). -/
structure Store where
  atoms : List (Nat × Atom)
deriving DecidableEq

/-- `TLB::getAtom`: resolve a handle, `none` for an unresolvable handle. -/
def Store.getAtom (s : Store) (h : Nat) : Option Atom :=
  (s.atoms.find? (fun p => p.1 == h)).map (fun p => p.2)

/-- The member fields of `PrivateUseOnlyChaseLink`.  `from_atom` and
`to_atom` are `Atom *` pointers in C++ (`none` models `NULL`, `some h` a
pointer to the live atom with handle `h`); `user_callback` and
`user_callback_lh` model the two member-function-pointer fields, of which
the entry points set exactly one. -/
structure ChaserState where
  link_type : Nat
  from_atom : Option Nat
  to_atom : Option Nat
  position_from : Int
  position_to : Int
  cnt : Int
  user_callback : Option (Nat → Bool)
  user_callback_lh : Option (Nat → Nat → Bool)

/-- `PrivateUseOnlyChaseLink::pursue_link`, one step of the outgoing-set
walk: increment `cnt`; at `position_from` require the member to be the
`from_atom` (clearing `to_atom` and aborting the walk on a mismatch); at
`position_to` record the member as `to_atom`.  The returned flag is the
early-termination signal of `foreach_outgoing_atom`. -/
def pursue_link (st : ChaserState) (a : Nat) : ChaserState × Bool :=
  let st1 := { st with cnt := st.cnt + 1 }
  if st1.position_from = st1.cnt then
    if st1.from_atom ≠ some a then ({ st1 with to_atom := none }, true)
    else (st1, false)
  else if st1.position_to = st1.cnt then
    ({ st1 with to_atom := some a }, false)
  else (st1, false)

/-- Modelled from the spec: `foreach_outgoing_atom` applied to the
`pursue_link` callback — enumerate the ordered members of a link, stopping
as soon as the callback signals stop; the flag reports early termination. -/
def foreach_outgoing : ChaserState → List Nat → ChaserState × Bool
  | st, [] => (st, false)
  | st, a :: rest =>
    let r := pursue_link st a
    if r.2 then r else foreach_outgoing r.1 rest

/-- Invoke whichever user callback is set (the C++ code calls
`user_callback` when it is non-null and `user_callback_lh` otherwise; both
being null is unreachable from the entry points, which always set one). -/
def apply_callback (st : ChaserState) (toA link_h : Nat) : Bool :=
  match st.user_callback with
  | some cb => cb toA
  | none =>
    match st.user_callback_lh with
    | some cb => cb toA link_h
    | none => false

/-- `PrivateUseOnlyChaseLink::find_link_type`: skip a candidate whose type
is not exactly `link_type`; otherwise reset `cnt` and `to_atom`, walk the
outgoing set with `pursue_link` (the walk's own early-exit flag is
discarded, as in the source), and, when a target was captured, invoke the
user callback.  Besides the updated state it returns the boolean `rc`
handed back to the incoming-set iteration and the `(target, link)` pair of
the callback invocation, if one was made. -/
def find_link_type (st : ChaserState) (link_atom : Atom) (link_h : Nat) :
    ChaserState × Bool × Option (Nat × Nat) :=
  if st.link_type ≠ link_atom.atype then (st, false, none)
  else
    let st1 := { st with cnt := -1, to_atom := none }
    let st2 := (foreach_outgoing st1 link_atom.out).1
    match st2.to_atom with
    | none => (st2, false, none)
    | some toA => (st2, apply_callback st2 toA link_h, some (toA, link_h))

/-- Trace of one incoming-set enumeration: the final chaser state, the
early-exit flag returned by `foreach_incoming_atom` (the C++ return value),
the candidate links examined by `find_link_type`, and the `(target, link)`
pairs of the user-callback invocations, in order. -/
structure ChaseTrace where
  state : ChaserState
  result : Bool
  examined : List Nat
  visits : List (Nat × Nat)

/-- The visit list contributed by one candidate link. -/
def optVisit : Option (Nat × Nat) → List (Nat × Nat)
  | none => []
  | some v => [v]

/-- Modelled from the spec: `foreach_incoming_atom` applied to the
`find_link_type` callback — enumerate the incoming links in order, stopping
as soon as `find_link_type` returns `true`; the `result` field reports
whether the enumeration was stopped early.  An incoming entry that does not
resolve to a live atom is never produced by the store's enumeration. -/
def foreach_incoming (s : Store) : ChaserState → List Nat → ChaseTrace
  | st, [] => ⟨st, false, [], []⟩
  | st, lh :: rest =>
    match s.getAtom lh with
    | none => foreach_incoming s st rest
    | some la =>
      let r := find_link_type st la lh
      if r.2.1 then ⟨r.1, true, [lh], optVisit r.2.2⟩
      else
        let t := foreach_incoming s r.1 rest
        ⟨t.state, t.result, lh :: t.examined, optVisit r.2.2 ++ t.visits⟩

/-- The observable part of a trace: the boolean result, the examined
candidates and the callback invocations. -/
def chase_out (t : ChaseTrace) : Bool × List Nat × List (Nat × Nat) :=
  (t.result, t.examined, t.visits)

/-- `PrivateUseOnlyChaseLink::follow_link`: resolve the start handle
(returning `false` for an unresolvable handle, the C++ `return NULL`),
initialise the member fields, and enumerate the incoming set with
`find_link_type`.  The first component is the C++ return value; the other
two are the instrumentation of the run. -/
def follow_link (s : Store) (st0 : ChaserState) (h ltype : Nat)
    (pfrom pto : Int) (cb : Nat → Bool) : Bool × List Nat × List (Nat × Nat) :=
  match s.getAtom h with
  | none => (false, [], [])
  | some atom =>
    let st := { st0 with
      link_type := ltype
      from_atom := some h
      to_atom := none
      position_from := pfrom
      position_to := pto
      user_callback := some cb
      user_callback_lh := none }
    chase_out (foreach_incoming s st atom.inc)

/-- `PrivateUseOnlyChaseLink::follow_link_lh`: same as `follow_link`, except
that the callback also receives the handle of the matching link. -/
def follow_link_lh (s : Store) (st0 : ChaserState) (h ltype : Nat)
    (pfrom pto : Int) (cb : Nat → Nat → Bool) : Bool × List Nat × List (Nat × Nat) :=
  match s.getAtom h with
  | none => (false, [], [])
  | some atom =>
    let st := { st0 with
      link_type := ltype
      from_atom := some h
      to_atom := none
      position_from := pfrom
      position_to := pto
      user_callback := none
      user_callback_lh := some cb }
    chase_out (foreach_incoming s st atom.inc)

/-- The wrapper `follow_binary_link` (plain-callback overload): a fresh
chaser (whose field values `st0` are arbitrary, matching the
default-initialised C++ local) chasing with positions `(0, 1)`. -/
def follow_binary_link (s : Store) (st0 : ChaserState) (h ltype : Nat)
    (cb : Nat → Bool) : Bool × List Nat × List (Nat × Nat) :=
  follow_link s st0 h ltype 0 1 cb

/-- The wrapper `follow_binary_link` (link-handle overload). -/
def follow_binary_link_lh (s : Store) (st0 : ChaserState) (h ltype : Nat)
    (cb : Nat → Nat → Bool) : Bool × List Nat × List (Nat × Nat) :=
  follow_link_lh s st0 h ltype 0 1 cb

/-- The wrapper `backtrack_binary_link` (plain-callback overload): chase
with positions `(1, 0)`. -/
def backtrack_binary_link (s : Store) (st0 : ChaserState) (h ltype : Nat)
    (cb : Nat → Bool) : Bool × List Nat × List (Nat × Nat) :=
  follow_link s st0 h ltype 1 0 cb

/-- The wrapper `backtrack_binary_link` (link-handle overload). -/
def backtrack_binary_link_lh (s : Store) (st0 : ChaserState) (h ltype : Nat)
    (cb : Nat → Nat → Bool) : Bool × List Nat × List (Nat × Nat) :=
  follow_link_lh s st0 h ltype 1 0 cb

/-- A chaser state with all fields zeroed / nulled, used for concrete runs. -/
def initState : ChaserState :=
  ⟨0, none, none, 0, 0, 0, none, none⟩

/-- The fields of the chaser that parameterise one chase: the sought link
type, the start atom, the two positions, and the two callbacks.  They are
written once at entry and only read afterwards. -/
def sameParams (s1 s2 : ChaserState) : Prop :=
  s1.link_type = s2.link_type ∧ s1.from_atom = s2.from_atom ∧
  s1.position_from = s2.position_from ∧ s1.position_to = s2.position_to ∧
  s1.user_callback = s2.user_callback ∧ s1.user_callback_lh = s2.user_callback_lh

/-- The data fields of the chaser (everything except the callbacks). -/
def dataOf (st : ChaserState) : Nat × Option Nat × Option Nat × Int × Int × Int :=
  (st.link_type, st.from_atom, st.to_atom, st.position_from, st.position_to, st.cnt)

/-- A visitor that always stops the chase. -/
def cbTrue : Nat → Bool := fun _ => true

/-- A visitor that never stops the chase. -/
def cbFalse : Nat → Bool := fun _ => false

/-- Node 1 with one incoming unary link 2 of type 7. -/
def storeUnary : Store := ⟨[(1, ⟨5, [], [2]⟩), (2, ⟨7, [1], []⟩)]⟩

/-- Nodes 1, 3 joined by the binary link 2 = (1, 3) of type 7. -/
def storeBinary : Store := ⟨[(1, ⟨5, [], [2]⟩), (3, ⟨5, [], [2]⟩), (2, ⟨7, [1, 3], []⟩)]⟩

/-- Node 1 with one incoming binary link 2 = (9, 1) of type 7: node 1 in
slot 1, not slot 0. -/
def storeMismatch : Store := ⟨[(1, ⟨5, [], [2]⟩), (2, ⟨7, [9, 1], []⟩), (9, ⟨5, [], [2]⟩)]⟩

/-- Nodes 1, 4 joined by two binary links of different types:
link 10 = (1, 4) of type 7 and link 11 = (1, 4) of type 8. -/
def storeTwoLinks : Store :=
  ⟨[(1, ⟨5, [], [10, 11]⟩), (4, ⟨5, [], [10, 11]⟩),
    (10, ⟨7, [1, 4], []⟩), (11, ⟨8, [1, 4], []⟩)]⟩

/-- A store with no atoms: every handle is unresolvable. -/
def storeEmpty : Store := ⟨[]⟩

/-- A store with one isolated node: its incoming set is empty. -/
def storeIsolated : Store := ⟨[(1, ⟨5, [], []⟩)]⟩

/-! ### Field-preservation and congruence infrastructure -/

theorem sameParams_refl (st : ChaserState) : sameParams st st :=
  ⟨rfl, rfl, rfl, rfl, rfl, rfl⟩

theorem sameParams_trans {s1 s2 s3 : ChaserState}
    (h1 : sameParams s1 s2) (h2 : sameParams s2 s3) : sameParams s1 s3 := by
  obtain ⟨a1, b1, c1, d1, e1, f1⟩ := h1
  obtain ⟨a2, b2, c2, d2, e2, f2⟩ := h2
  exact ⟨a1.trans a2, b1.trans b2, c1.trans c2, d1.trans d2, e1.trans e2, f1.trans f2⟩

theorem pursue_link_sameParams (st : ChaserState) (a : Nat) :
    sameParams (pursue_link st a).1 st := by
  simp only [pursue_link]
  split_ifs <;> simp [sameParams]

theorem foreach_outgoing_sameParams :
    ∀ (outg : List Nat) (st : ChaserState), sameParams (foreach_outgoing st outg).1 st
  | [], st => sameParams_refl st
  | a :: rest, st => by
    simp only [foreach_outgoing]
    split
    · exact pursue_link_sameParams st a
    · exact sameParams_trans (foreach_outgoing_sameParams rest (pursue_link st a).1)
        (pursue_link_sameParams st a)

theorem find_link_type_sameParams (st : ChaserState) (la : Atom) (lh : Nat) :
    sameParams (find_link_type st la lh).1 st := by
  simp only [find_link_type]
  split
  · exact sameParams_refl st
  · split <;>
      exact sameParams_trans
        (foreach_outgoing_sameParams la.out { st with cnt := -1, to_atom := none })
        ⟨rfl, rfl, rfl, rfl, rfl, rfl⟩

theorem apply_callback_congr {s1 s2 : ChaserState}
    (h1 : s1.user_callback = s2.user_callback)
    (h2 : s1.user_callback_lh = s2.user_callback_lh) (t l : Nat) :
    apply_callback s1 t l = apply_callback s2 t l := by
  unfold apply_callback
  rw [h1, h2]

/-! ### Characterisation of the outgoing-set walk -/

/-- If the walk ends with a captured target, the target either was already
recorded or is the member at the offset of `position_to` from the current
counter. -/
theorem foreach_outgoing_to_atom (outg : List Nat) :
    ∀ (st : ChaserState) (t : Nat),
      ((foreach_outgoing st outg).1).to_atom = some t →
      st.to_atom = some t ∨
        ∃ i : Nat, st.position_to = st.cnt + 1 + (i : Int) ∧ outg.get? i = some t := by
  induction outg with
  | nil =>
    intro st t h
    exact Or.inl (by simpa [foreach_outgoing] using h)
  | cons a rest ih =>
    intro st t h
    simp only [foreach_outgoing, pursue_link] at h
    by_cases hf : st.position_from = st.cnt + 1
    · by_cases hm : st.from_atom = some a
      · simp [hf, hm] at h
        rcases ih _ t h with h1 | ⟨i, hpi, hg⟩
        · exact Or.inl h1
        · refine Or.inr ⟨i + 1, ?_, by simpa using hg⟩
          dsimp only at hpi
          push_cast at hpi ⊢
          omega
      · simp [hf, hm] at h
    · by_cases hp : st.position_to = st.cnt + 1
      · simp [hf, hp] at h
        rcases ih _ t h with h1 | ⟨i, hpi, hg⟩
        · dsimp only at h1
          refine Or.inr ⟨0, by simpa using hp, ?_⟩
          simpa using h1
        · refine Or.inr ⟨i + 1, ?_, by simpa using hg⟩
          dsimp only at hpi
          push_cast at hpi ⊢
          omega
      · simp [hf, hp] at h
        rcases ih _ t h with h1 | ⟨i, hpi, hg⟩
        · exact Or.inl h1
        · refine Or.inr ⟨i + 1, ?_, by simpa using hg⟩
          dsimp only at hpi
          push_cast at hpi ⊢
          omega

/-- With coinciding positions the walk never records a target: at the
shared index the source-identity branch runs and returns first. -/
theorem foreach_outgoing_degenerate (outg : List Nat) :
    ∀ st : ChaserState, st.position_from = st.position_to → st.to_atom = none →
      ((foreach_outgoing st outg).1).to_atom = none := by
  induction outg with
  | nil =>
    intro st _ h2
    simpa [foreach_outgoing] using h2
  | cons a rest ih =>
    intro st hd h2
    simp only [foreach_outgoing, pursue_link]
    by_cases hf : st.position_from = st.cnt + 1
    · by_cases hm : st.from_atom = some a
      · simp [hf, hm]
        exact ih _ (by dsimp only; omega) (by simpa using h2)
      · simp [hf, hm]
    · have hp : ¬ st.position_to = st.cnt + 1 := by rw [← hd]; exact hf
      simp [hf, hp]
      exact ih _ (by simpa using hd) (by simpa using h2)

/-- If the member at the source position differs from `from_atom`, the walk
aborts there with the target cleared. -/
theorem foreach_outgoing_source_mismatch (outg : List Nat) :
    ∀ (st : ChaserState) (i : Nat) (m : Nat),
      st.position_from = st.cnt + 1 + (i : Int) → outg.get? i = some m →
      st.from_atom ≠ some m → ((foreach_outgoing st outg).1).to_atom = none := by
  induction outg with
  | nil =>
    intro st i m _ hg _
    simp at hg
  | cons a rest ih =>
    intro st i m hpos hg hne
    simp only [foreach_outgoing, pursue_link]
    cases i with
    | zero =>
      simp at hg
      have hf : st.position_from = st.cnt + 1 := by push_cast at hpos; omega
      have hm : ¬ st.from_atom = some a := by rw [hg]; exact hne
      simp [hf, hm]
    | succ j =>
      have hf : ¬ st.position_from = st.cnt + 1 := by push_cast at hpos; omega
      have hg2 : rest.get? j = some m := by simpa using hg
      by_cases hp : st.position_to = st.cnt + 1
      · simp [hf, hp]
        refine ih _ j m ?_ hg2 hne
        show st.position_from = st.cnt + 1 + 1 + (j : Int)
        push_cast at hpos ⊢
        omega
      · simp [hf, hp]
        refine ih _ j m ?_ hg2 hne
        show st.position_from = st.cnt + 1 + 1 + (j : Int)
        push_cast at hpos ⊢
        omega

/-! ### Congruence: a run depends only on the parameter fields -/

theorem pursue_link_data_congr {s1 s2 : ChaserState} (a : Nat)
    (h : dataOf s1 = dataOf s2) :
    dataOf (pursue_link s1 a).1 = dataOf (pursue_link s2 a).1 ∧
      (pursue_link s1 a).2 = (pursue_link s2 a).2 := by
  simp only [dataOf, Prod.mk.injEq] at h
  obtain ⟨h1, h2, h3, h4, h5, h6⟩ := h
  by_cases c1 : s2.position_from = s2.cnt + 1
  · by_cases c2 : s2.from_atom = some a
    · simp [pursue_link, dataOf, h1, h2, h3, h4, h5, h6, c1, c2]
    · simp [pursue_link, dataOf, h1, h2, h3, h4, h5, h6, c1, c2]
  · by_cases c2 : s2.position_to = s2.cnt + 1
    · simp [pursue_link, dataOf, h1, h2, h3, h4, h5, h6, c1, c2]
    · simp [pursue_link, dataOf, h1, h2, h3, h4, h5, h6, c1, c2]

theorem foreach_outgoing_data_congr (outg : List Nat) :
    ∀ {s1 s2 : ChaserState}, dataOf s1 = dataOf s2 →
      dataOf (foreach_outgoing s1 outg).1 = dataOf (foreach_outgoing s2 outg).1 ∧
        (foreach_outgoing s1 outg).2 = (foreach_outgoing s2 outg).2 := by
  induction outg with
  | nil =>
    intro s1 s2 h
    exact ⟨by simpa [foreach_outgoing] using h, rfl⟩
  | cons a rest ih =>
    intro s1 s2 h
    obtain ⟨hd, hf⟩ := pursue_link_data_congr a h
    simp only [foreach_outgoing]
    by_cases hc : (pursue_link s2 a).2 = true
    · have hc1 : (pursue_link s1 a).2 = true := by rw [hf]; exact hc
      rw [if_pos hc1, if_pos hc]
      exact ⟨hd, hf⟩
    · have hc1 : ¬ (pursue_link s1 a).2 = true := by rw [hf]; exact hc
      rw [if_neg hc1, if_neg hc]
      exact ih hd

theorem find_link_type_congr {s1 s2 : ChaserState} (la : Atom) (lh : Nat)
    (h1 : s1.link_type = s2.link_type) (h2 : s1.from_atom = s2.from_atom)
    (h3 : s1.position_from = s2.position_from) (h4 : s1.position_to = s2.position_to)
    (h5 : ∀ t l, apply_callback s1 t l = apply_callback s2 t l) :
    (find_link_type s1 la lh).2 = (find_link_type s2 la lh).2 := by
  by_cases hty : s2.link_type ≠ la.atype
  · have hty1 : s1.link_type ≠ la.atype := by rw [h1]; exact hty
    simp [find_link_type, hty, hty1]
  · have hty1 : ¬ s1.link_type ≠ la.atype := by rw [h1]; exact hty
    simp only [find_link_type]
    rw [if_neg hty1, if_neg hty]
    have hdata : dataOf { s1 with cnt := -1, to_atom := none } =
        dataOf { s2 with cnt := -1, to_atom := none } := by
      simp [dataOf, h1, h2, h3, h4]
    obtain ⟨hw, _⟩ := foreach_outgoing_data_congr la.out hdata
    have hto : (foreach_outgoing { s1 with cnt := -1, to_atom := none } la.out).1.to_atom =
        (foreach_outgoing { s2 with cnt := -1, to_atom := none } la.out).1.to_atom := by
      have h := congrArg (fun p => p.2.2.1) hw
      simpa [dataOf] using h
    cases hc : (foreach_outgoing { s2 with cnt := -1, to_atom := none } la.out).1.to_atom with
    | none =>
      have hc1 := hto.trans hc
      simp only [hc, hc1]
    | some t =>
      have hc1 := hto.trans hc
      simp only [hc, hc1]
      obtain ⟨_, _, _, _, e1, f1⟩ :=
        foreach_outgoing_sameParams la.out { s1 with cnt := -1, to_atom := none }
      obtain ⟨_, _, _, _, e2, f2⟩ :=
        foreach_outgoing_sameParams la.out { s2 with cnt := -1, to_atom := none }
      have happ : apply_callback (foreach_outgoing { s1 with cnt := -1, to_atom := none } la.out).1 t lh =
          apply_callback (foreach_outgoing { s2 with cnt := -1, to_atom := none } la.out).1 t lh := by
        rw [apply_callback_congr e1 f1, apply_callback_congr e2 f2]
        exact h5 t lh
      rw [happ]

/-- Case analysis of one candidate: either no callback invocation is made
and the candidate returns `false` (continue), or the callback is invoked on
a captured target, with the candidate's own handle as the link argument,
and its result is handed back to the enumeration. -/
theorem find_link_type_cases (st : ChaserState) (la : Atom) (lh : Nat) :
    ((find_link_type st la lh).2.2 = none ∧ (find_link_type st la lh).2.1 = false) ∨
      ∃ t, (find_link_type st la lh).2.2 = some (t, lh) ∧
        (find_link_type st la lh).2.1 = apply_callback st t lh := by
  simp only [find_link_type]
  by_cases hty : st.link_type ≠ la.atype
  · rw [if_pos hty]
    exact Or.inl ⟨rfl, rfl⟩
  · rw [if_neg hty]
    cases hc : (foreach_outgoing { st with cnt := -1, to_atom := none } la.out).1.to_atom with
    | none =>
      simp only [hc]
      exact Or.inl ⟨by simp, by simp⟩
    | some t =>
      simp only [hc]
      obtain ⟨_, _, _, _, e1, f1⟩ :=
        foreach_outgoing_sameParams la.out { st with cnt := -1, to_atom := none }
      exact Or.inr ⟨t, by simp, apply_callback_congr e1 f1 t lh⟩

/-- A candidate whose captured target exists: the candidate's type is
exactly the sought type and the target is the member at `position_to`. -/
theorem find_link_type_visit_sound {st : ChaserState} {la : Atom} {lh : Nat} {v : Nat × Nat}
    (h : (find_link_type st la lh).2.2 = some v) :
    v.2 = lh ∧ la.atype = st.link_type ∧
      ∃ i : Nat, st.position_to = (i : Int) ∧ la.out.get? i = some v.1 := by
  simp only [find_link_type] at h
  by_cases hty : st.link_type ≠ la.atype
  · rw [if_pos hty] at h
    exact absurd h (by simp)
  · rw [if_neg hty] at h
    cases hc : (foreach_outgoing { st with cnt := -1, to_atom := none } la.out).1.to_atom with
    | none =>
      simp only [hc] at h
      exact absurd h (by simp)
    | some t =>
      simp only [hc] at h
      have hv : v = (t, lh) := by
        have := h
        simp only [Option.some.injEq] at this
        exact this.symm
      subst hv
      refine ⟨rfl, (not_not.mp hty).symm, ?_⟩
      rcases foreach_outgoing_to_atom la.out _ t hc with h1 | ⟨i, hpi, hg⟩
      · exact Option.noConfusion h1
      · refine ⟨i, ?_, hg⟩
        dsimp only at hpi
        omega

/-- With coinciding positions a candidate never invokes the callback. -/
theorem find_link_type_degenerate (st : ChaserState) (la : Atom) (lh : Nat)
    (h : st.position_from = st.position_to) :
    (find_link_type st la lh).2 = (false, none) := by
  simp only [find_link_type]
  by_cases hty : st.link_type ≠ la.atype
  · rw [if_pos hty]
  · rw [if_neg hty]
    have hto : (foreach_outgoing { st with cnt := -1, to_atom := none } la.out).1.to_atom = none :=
      foreach_outgoing_degenerate la.out _ h rfl
    simp only [hto]

/-- A candidate whose outgoing set has no member at `position_to` never
invokes the callback. -/
theorem find_link_type_target_out_of_range (st : ChaserState) (la : Atom) (lh : Nat)
    (h : st.position_to < 0 ∨ (la.out.length : Int) ≤ st.position_to) :
    (find_link_type st la lh).2 = (false, none) := by
  simp only [find_link_type]
  by_cases hty : st.link_type ≠ la.atype
  · rw [if_pos hty]
  · rw [if_neg hty]
    cases hc : (foreach_outgoing { st with cnt := -1, to_atom := none } la.out).1.to_atom with
    | none => simp only [hc]
    | some t =>
      exfalso
      rcases foreach_outgoing_to_atom la.out _ t hc with h1 | ⟨i, hpi, hg⟩
      · exact Option.noConfusion h1
      · obtain ⟨hlt, _⟩ := List.get?_eq_some.mp hg
        dsimp only at hpi
        rcases h with h | h <;> omega

/-! ### Lemmas on the incoming-set enumeration -/

/-- Unfolding `foreach_incoming` at an unresolvable incoming entry. -/
theorem foreach_incoming_cons_none (s : Store) (st : ChaserState) (lh : Nat)
    (rest : List Nat) (hla : s.getAtom lh = none) :
    foreach_incoming s st (lh :: rest) = foreach_incoming s st rest := by
  simp only [foreach_incoming, hla]

/-- Unfolding `foreach_incoming` at a resolvable incoming entry. -/
theorem foreach_incoming_cons_some (s : Store) (st : ChaserState) (lh : Nat) (la : Atom)
    (rest : List Nat) (hla : s.getAtom lh = some la) :
    foreach_incoming s st (lh :: rest) =
      if (find_link_type st la lh).2.1 = true then
        ⟨(find_link_type st la lh).1, true, [lh], optVisit (find_link_type st la lh).2.2⟩
      else
        ⟨(foreach_incoming s (find_link_type st la lh).1 rest).state,
          (foreach_incoming s (find_link_type st la lh).1 rest).result,
          lh :: (foreach_incoming s (find_link_type st la lh).1 rest).examined,
          optVisit (find_link_type st la lh).2.2 ++
            (foreach_incoming s (find_link_type st la lh).1 rest).visits⟩ := by
  simp only [foreach_incoming, hla]

/-- The observable outcome of the incoming-set enumeration depends only on
the parameter fields written at entry (not on leftover `cnt` / `to_atom`
values), and on the callbacks only through their application. -/
theorem foreach_incoming_congr (s : Store) (inc : List Nat) :
    ∀ {s1 s2 : ChaserState}, s1.link_type = s2.link_type → s1.from_atom = s2.from_atom →
      s1.position_from = s2.position_from → s1.position_to = s2.position_to →
      (∀ t l, apply_callback s1 t l = apply_callback s2 t l) →
      chase_out (foreach_incoming s s1 inc) = chase_out (foreach_incoming s s2 inc) := by
  induction inc with
  | nil => intro s1 s2 _ _ _ _ _; rfl
  | cons lh rest ih =>
    intro s1 s2 h1 h2 h3 h4 h5
    cases hla : s.getAtom lh with
    | none =>
      rw [foreach_incoming_cons_none s s1 lh rest hla,
        foreach_incoming_cons_none s s2 lh rest hla]
      exact ih h1 h2 h3 h4 h5
    | some la =>
      rw [foreach_incoming_cons_some s s1 lh la rest hla,
        foreach_incoming_cons_some s s2 lh la rest hla]
      have hfind := find_link_type_congr la lh h1 h2 h3 h4 h5
      have hrc : (find_link_type s1 la lh).2.1 = (find_link_type s2 la lh).2.1 := by rw [hfind]
      have hv : (find_link_type s1 la lh).2.2 = (find_link_type s2 la lh).2.2 := by rw [hfind]
      obtain ⟨a1, b1, c1, d1, e1, f1⟩ := find_link_type_sameParams s1 la lh
      obtain ⟨a2, b2, c2, d2, e2, f2⟩ := find_link_type_sameParams s2 la lh
      have ihr := @ih (find_link_type s1 la lh).1 (find_link_type s2 la lh).1
        (by rw [a1, a2, h1]) (by rw [b1, b2, h2]) (by rw [c1, c2, h3]) (by rw [d1, d2, h4])
        (fun t l => by
          rw [apply_callback_congr e1 f1, apply_callback_congr e2 f2]
          exact h5 t l)
      by_cases hb : (find_link_type s2 la lh).2.1 = true
      · have hb1 : (find_link_type s1 la lh).2.1 = true := by rw [hrc]; exact hb
        rw [if_pos hb1, if_pos hb]
        simp [chase_out, hv]
      · have hb1 : ¬ (find_link_type s1 la lh).2.1 = true := by rw [hrc]; exact hb
        rw [if_neg hb1, if_neg hb]
        simp only [chase_out, Prod.mk.injEq] at ihr ⊢
        exact ⟨ihr.1, by rw [ihr.2.1], by rw [hv, ihr.2.2]⟩

/-- A candidate that makes no callback invocation and returns `false` is
merely examined: the rest of the enumeration proceeds as if started fresh. -/
theorem foreach_incoming_skip (s : Store) {st : ChaserState} {lh : Nat} {la : Atom}
    (rest : List Nat) (hla : s.getAtom lh = some la)
    (hskip : (find_link_type st la lh).2 = (false, none)) :
    chase_out (foreach_incoming s st (lh :: rest)) =
      ((foreach_incoming s st rest).result,
        lh :: (foreach_incoming s st rest).examined,
        (foreach_incoming s st rest).visits) := by
  rw [foreach_incoming_cons_some s st lh la rest hla]
  have hrc : (find_link_type st la lh).2.1 = false := by rw [hskip]
  have hv : (find_link_type st la lh).2.2 = none := by rw [hskip]
  rw [if_neg (by simp [hrc])]
  obtain ⟨a1, b1, c1, d1, e1, f1⟩ := find_link_type_sameParams st la lh
  have hcongr := foreach_incoming_congr s rest a1 b1 c1 d1
    (fun t l => apply_callback_congr e1 f1 t l)
  simp only [chase_out, Prod.mk.injEq] at hcongr ⊢
  exact ⟨hcongr.1, by rw [hcongr.2.1], by rw [hv, hcongr.2.2]; simp [optVisit]⟩

/-- The enumeration stops early exactly when some performed callback
invocation returned `true`. -/
theorem foreach_incoming_result_iff (s : Store) (inc : List Nat) :
    ∀ st : ChaserState, (foreach_incoming s st inc).result = true ↔
      ∃ v ∈ (foreach_incoming s st inc).visits, apply_callback st v.1 v.2 = true := by
  induction inc with
  | nil => intro st; simp [foreach_incoming]
  | cons lh rest ih =>
    intro st
    cases hla : s.getAtom lh with
    | none =>
      rw [foreach_incoming_cons_none s st lh rest hla]
      exact ih st
    | some la =>
      rw [foreach_incoming_cons_some s st lh la rest hla]
      obtain ⟨a1, b1, c1, d1, e1, f1⟩ := find_link_type_sameParams st la lh
      rcases find_link_type_cases st la lh with ⟨hv, hrc⟩ | ⟨t, hv, hrc⟩
      · rw [if_neg (by simp [hrc])]
        simp only [hv, optVisit, List.nil_append]
        rw [ih ((find_link_type st la lh).1)]
        simp only [apply_callback_congr e1 f1]
      · by_cases hb : apply_callback st t lh = true
        · rw [if_pos (by rw [hrc]; exact hb)]
          simp only [hv, optVisit]
          simp [hb]
        · rw [if_neg (by rw [hrc]; simpa using hb)]
          simp only [hv, optVisit, List.singleton_append]
          rw [ih ((find_link_type st la lh).1)]
          simp only [apply_callback_congr e1 f1]
          constructor
          · rintro ⟨v, hmem, happ⟩
            exact ⟨v, List.mem_cons_of_mem _ hmem, happ⟩
          · rintro ⟨v, hmem, happ⟩
            rcases List.mem_cons.mp hmem with he | hmem2
            · exact absurd (he ▸ happ) (by simpa using hb)
            · exact ⟨v, hmem2, happ⟩

/-- Every performed callback invocation comes from a candidate link of the
incoming set whose type is exactly the sought type, the link's own handle
is passed as the link argument, and the target is the member at
`position_to` of that link's outgoing set. -/
theorem foreach_incoming_visits_sound (s : Store) (inc : List Nat) :
    ∀ (st : ChaserState) (v : Nat × Nat), v ∈ (foreach_incoming s st inc).visits →
      v.2 ∈ inc ∧ ∃ la, s.getAtom v.2 = some la ∧ la.atype = st.link_type ∧
        ∃ i : Nat, st.position_to = (i : Int) ∧ la.out.get? i = some v.1 := by
  induction inc with
  | nil => intro st v h; simp [foreach_incoming] at h
  | cons lh rest ih =>
    intro st v hv
    cases hla : s.getAtom lh with
    | none =>
      rw [foreach_incoming_cons_none s st lh rest hla] at hv
      obtain ⟨h1, h2⟩ := ih st v hv
      exact ⟨List.mem_cons_of_mem _ h1, h2⟩
    | some la =>
      rw [foreach_incoming_cons_some s st lh la rest hla] at hv
      obtain ⟨a1, b1, c1, d1, e1, f1⟩ := find_link_type_sameParams st la lh
      have hrest : v ∈ (foreach_incoming s (find_link_type st la lh).1 rest).visits →
          v.2 ∈ lh :: rest ∧ ∃ la2, s.getAtom v.2 = some la2 ∧ la2.atype = st.link_type ∧
            ∃ i : Nat, st.position_to = (i : Int) ∧ la2.out.get? i = some v.1 := by
        intro hmem
        obtain ⟨h1, la2, h2, h3, i, h4, h5⟩ := ih _ v hmem
        exact ⟨List.mem_cons_of_mem _ h1, la2, h2, by rw [← a1]; exact h3, i,
          by rw [← d1]; exact h4, h5⟩
      have hown : (find_link_type st la lh).2.2 = some v →
          v.2 ∈ lh :: rest ∧ ∃ la2, s.getAtom v.2 = some la2 ∧ la2.atype = st.link_type ∧
            ∃ i : Nat, st.position_to = (i : Int) ∧ la2.out.get? i = some v.1 := by
        intro hsome
        obtain ⟨hv2, hty, i, h4, h5⟩ := find_link_type_visit_sound hsome
        exact ⟨by rw [hv2]; exact List.mem_cons_self lh rest,
          la, by rw [hv2]; exact hla, hty, i, h4, h5⟩
      by_cases hb : (find_link_type st la lh).2.1 = true
      · rw [if_pos hb] at hv
        rcases find_link_type_cases st la lh with ⟨hvn, hrc⟩ | ⟨t, hvs, _⟩
        · rw [hb] at hrc; exact absurd hrc (by simp)
        · simp only [hvs, optVisit] at hv
          simp only [List.mem_singleton] at hv
          exact hown (by rw [hvs, hv])
      · rw [if_neg hb] at hv
        rcases find_link_type_cases st la lh with ⟨hvn, _⟩ | ⟨t, hvs, _⟩
        · simp only [hvn, optVisit, List.nil_append] at hv
          exact hrest hv
        · simp only [hvs, optVisit, List.singleton_append] at hv
          rcases List.mem_cons.mp hv with he | hmem2
          · exact hown (by rw [hvs, he])
          · exact hrest hmem2

/-- Once the enumeration has stopped early on a prefix, appending further
candidates changes nothing: they are never examined. -/
theorem foreach_incoming_append (s : Store) (pre post : List Nat) :
    ∀ st : ChaserState, (foreach_incoming s st pre).result = true →
      chase_out (foreach_incoming s st (pre ++ post)) = chase_out (foreach_incoming s st pre) := by
  induction pre with
  | nil => intro st h; simp [foreach_incoming] at h
  | cons lh rest ih =>
    intro st h
    rw [List.cons_append]
    cases hla : s.getAtom lh with
    | none =>
      rw [foreach_incoming_cons_none s st lh rest hla] at h
      rw [foreach_incoming_cons_none s st lh rest hla,
        foreach_incoming_cons_none s st lh (rest ++ post) hla]
      exact ih st h
    | some la =>
      rw [foreach_incoming_cons_some s st lh la rest hla] at h
      rw [foreach_incoming_cons_some s st lh la rest hla,
        foreach_incoming_cons_some s st lh la (rest ++ post) hla]
      by_cases hb : (find_link_type st la lh).2.1 = true
      · simp only [if_pos hb] at h ⊢
      · simp only [if_neg hb] at h ⊢
        have h2 : (foreach_incoming s (find_link_type st la lh).1 rest).result = true := h
        have hres := ih _ h2
        simp only [chase_out, Prod.mk.injEq] at hres ⊢
        exact ⟨hres.1, by rw [hres.2.1], by rw [hres.2.2]⟩

/-- When no callback invocation ever stops the enumeration, every
candidate's callback invocation appears in the visit list. -/
theorem foreach_incoming_mem_visits (s : Store) (inc : List Nat) :
    ∀ (st : ChaserState) (lh : Nat) (la : Atom) (t : Nat),
      (∀ x l, apply_callback st x l = false) → lh ∈ inc → s.getAtom lh = some la →
      (find_link_type st la lh).2.2 = some (t, lh) →
      (t, lh) ∈ (foreach_incoming s st inc).visits := by
  induction inc with
  | nil => intro st lh la t _ hmem _ _; simp at hmem
  | cons a rest ih =>
    intro st lh la t hall hmem hla hfind
    cases hga : s.getAtom a with
    | none =>
      rw [foreach_incoming_cons_none s st a rest hga]
      have hne : lh ≠ a := by
        intro he
        rw [he, hga] at hla
        exact Option.noConfusion hla
      have hmem2 : lh ∈ rest := by
        rcases List.mem_cons.mp hmem with h | h
        · exact absurd h hne
        · exact h
      exact ih st lh la t hall hmem2 hla hfind
    | some la2 =>
      rw [foreach_incoming_cons_some s st a la2 rest hga]
      have hrc : (find_link_type st la2 a).2.1 = false := by
        rcases find_link_type_cases st la2 a with ⟨_, h⟩ | ⟨t2, _, h⟩
        · exact h
        · rw [h]; exact hall t2 a
      rw [if_neg (by simp [hrc])]
      by_cases he : lh = a
      · subst he
        rw [hla] at hga
        have hla2 : la2 = la := by injection hga with h; exact h.symm
        subst hla2
        have : (t, lh) ∈ optVisit (find_link_type st la2 lh).2.2 := by
          rw [hfind]
          simp [optVisit]
        exact List.mem_append_left _ this
      · have hmem2 : lh ∈ rest := by
          rcases List.mem_cons.mp hmem with h | h
          · exact absurd h he
          · exact h
        obtain ⟨a1, b1, c1, d1, e1, f1⟩ := find_link_type_sameParams st la2 a
        have hall2 : ∀ x l, apply_callback (find_link_type st la2 a).1 x l = false := by
          intro x l
          rw [apply_callback_congr e1 f1]
          exact hall x l
        have hfind2 : (find_link_type (find_link_type st la2 a).1 la lh).2.2 = some (t, lh) := by
          have hc := find_link_type_congr la lh a1 b1 c1 d1
            (fun x l => apply_callback_congr e1 f1 x l)
          have := congrArg (fun p => p.2) hc
          simp only at this
          rw [this]
          exact hfind
        exact List.mem_append_right _ (ih _ lh la t hall2 hmem2 hla hfind2)

/-- With coinciding positions no candidate ever invokes the callback and
the enumeration runs to exhaustion. -/
theorem foreach_incoming_degenerate (s : Store) (inc : List Nat) :
    ∀ st : ChaserState, st.position_from = st.position_to →
      (foreach_incoming s st inc).result = false ∧
        (foreach_incoming s st inc).visits = [] := by
  induction inc with
  | nil => intro st _; exact ⟨rfl, rfl⟩
  | cons lh rest ih =>
    intro st hd
    cases hla : s.getAtom lh with
    | none =>
      rw [foreach_incoming_cons_none s st lh rest hla]
      exact ih st hd
    | some la =>
      rw [foreach_incoming_cons_some s st lh la rest hla]
      have hskip := find_link_type_degenerate st la lh hd
      have hrc : (find_link_type st la lh).2.1 = false := by rw [hskip]
      have hvn : (find_link_type st la lh).2.2 = none := by rw [hskip]
      rw [if_neg (by simp [hrc])]
      obtain ⟨a1, _, c1, d1, _, _⟩ := find_link_type_sameParams st la lh
      have hd2 : (find_link_type st la lh).1.position_from =
          (find_link_type st la lh).1.position_to := by
        rw [c1, d1]; exact hd
      obtain ⟨h1, h2⟩ := ih _ hd2
      exact ⟨h1, by simp [hvn, optVisit, h2]⟩

/-- A candidate whose member at the source position is not the start atom
never invokes the callback. -/
theorem find_link_type_source_mismatch (st : ChaserState) (la : Atom) (lh : Nat)
    (i : Nat) (m : Nat) (hpi : st.position_from = (i : Int)) (hg : la.out.get? i = some m)
    (hne : st.from_atom ≠ some m) :
    (find_link_type st la lh).2 = (false, none) := by
  simp only [find_link_type]
  by_cases hty : st.link_type ≠ la.atype
  · rw [if_pos hty]
  · rw [if_neg hty]
    have hto : (foreach_outgoing { st with cnt := -1, to_atom := none } la.out).1.to_atom = none := by
      refine foreach_outgoing_source_mismatch la.out _ i m ?_ hg hne
      dsimp only
      omega
    simp only [hto]

/-! ### Unfolding the entry points -/

theorem follow_link_none (s : Store) (st0 : ChaserState) (h ltype : Nat) (pf pt : Int)
    (cb : Nat → Bool) (hla : s.getAtom h = none) :
    follow_link s st0 h ltype pf pt cb = (false, [], []) := by
  simp only [follow_link, hla]

theorem follow_link_some (s : Store) (st0 : ChaserState) (h ltype : Nat) (pf pt : Int)
    (cb : Nat → Bool) (atom : Atom) (hla : s.getAtom h = some atom) :
    follow_link s st0 h ltype pf pt cb =
      chase_out (foreach_incoming s
        ⟨ltype, some h, none, pf, pt, st0.cnt, some cb, none⟩ atom.inc) := by
  simp only [follow_link, hla]

theorem follow_link_lh_none (s : Store) (st0 : ChaserState) (h ltype : Nat) (pf pt : Int)
    (cb : Nat → Nat → Bool) (hla : s.getAtom h = none) :
    follow_link_lh s st0 h ltype pf pt cb = (false, [], []) := by
  simp only [follow_link_lh, hla]

theorem follow_link_lh_some (s : Store) (st0 : ChaserState) (h ltype : Nat) (pf pt : Int)
    (cb : Nat → Nat → Bool) (atom : Atom) (hla : s.getAtom h = some atom) :
    follow_link_lh s st0 h ltype pf pt cb =
      chase_out (foreach_incoming s
        ⟨ltype, some h, none, pf, pt, st0.cnt, none, some cb⟩ atom.inc) := by
  simp only [follow_link_lh, hla]

/-- The stop flag of a chase is `true` exactly when the user callback
returned `true` on one of the performed invocations. -/
theorem follow_link_result_iff (s : Store) (st0 : ChaserState) (h ltype : Nat) (pf pt : Int)
    (cb : Nat → Bool) :
    (follow_link s st0 h ltype pf pt cb).1 = true ↔
      ∃ v ∈ (follow_link s st0 h ltype pf pt cb).2.2, cb v.1 = true := by
  cases hla : s.getAtom h with
  | none => simp [follow_link_none s st0 h ltype pf pt cb hla]
  | some atom =>
    rw [follow_link_some s st0 h ltype pf pt cb atom hla]
    simp only [chase_out]
    rw [foreach_incoming_result_iff s atom.inc]
    constructor
    · rintro ⟨v, hm, ha⟩
      exact ⟨v, hm, ha⟩
    · rintro ⟨v, hm, ha⟩
      exact ⟨v, hm, ha⟩

/-! ### The claims -/

/-- Claim C1, counterexample.  In `storeUnary` the start atom 1 has one
incoming link, handle 2, of type 7 with outgoing set `[1]` (arity 1).  The
call `follow_link 1 7 5 0` has `sourcePos = 5`, out of range for that
link's outgoing set, yet the link matches: the visitor is invoked (on the
member at `targetPos = 0`) and its `true` return becomes the chase result —
the source-position identity check is simply never reached.  This refutes
the claim that an out-of-range `sourcePos` makes a candidate link never
match. -/
theorem c1_counterexample :
    (storeUnary.getAtom 2).map Atom.out = some [1] ∧
    follow_link storeUnary initState 1 7 5 0 cbTrue = (true, [2], [(1, 2)]) := by
  constructor
  · decide
  · decide

/-- Claim C1, amended: only the `targetPos` half survives.  For every
candidate link of the incoming set whose outgoing set has no member at
`position_to` (the position is negative or at least the link's arity), that
link never matches: the visitor is not invoked for it, and the enumeration
result and visit list are those of the remaining candidates, the link being
merely examined. -/
theorem c1_target_out_of_range_never_matches (s : Store) (st : ChaserState)
    (lh : Nat) (la : Atom) (rest : List Nat) (hla : s.getAtom lh = some la)
    (hout : st.position_to < 0 ∨ (la.out.length : Int) ≤ st.position_to) :
    chase_out (foreach_incoming s st (lh :: rest)) =
      ((foreach_incoming s st rest).result,
        lh :: (foreach_incoming s st rest).examined,
        (foreach_incoming s st rest).visits) :=
  foreach_incoming_skip s rest hla (find_link_type_target_out_of_range st la lh hout)

/-- Witness for the amended claim C1: in `storeUnary` with
`targetPos = 5` (arity of link 2 is 1), candidate 2 is examined but yields
no visit and the chase result is that of the empty remainder. -/
theorem c1_target_out_of_range_witness :
    chase_out (foreach_incoming storeUnary
        ⟨7, some 1, none, 0, 5, 0, some cbTrue, none⟩ [2]) =
      ((foreach_incoming storeUnary
          ⟨7, some 1, none, 0, 5, 0, some cbTrue, none⟩ []).result,
        2 :: (foreach_incoming storeUnary
          ⟨7, some 1, none, 0, 5, 0, some cbTrue, none⟩ []).examined,
        (foreach_incoming storeUnary
          ⟨7, some 1, none, 0, 5, 0, some cbTrue, none⟩ []).visits) :=
  c1_target_out_of_range_never_matches storeUnary
    ⟨7, some 1, none, 0, 5, 0, some cbTrue, none⟩ 2 ⟨7, [1], []⟩ []
    (by decide) (by decide)

/-- Claim C2 (confirmed): a candidate link of the requested type in whose
outgoing set the member at index `sourcePos` is not the start atom yields
no visitor call, and the enumeration continues with the remaining
candidates instead of terminating. -/
theorem c2_source_position_mismatch_skips (s : Store) (st : ChaserState)
    (lh : Nat) (la : Atom) (rest : List Nat) (i : Nat) (m : Nat)
    (hla : s.getAtom lh = some la) (_htype : la.atype = st.link_type)
    (hpos : st.position_from = (i : Int)) (hmem : la.out.get? i = some m)
    (hne : st.from_atom ≠ some m) :
    chase_out (foreach_incoming s st (lh :: rest)) =
      ((foreach_incoming s st rest).result,
        lh :: (foreach_incoming s st rest).examined,
        (foreach_incoming s st rest).visits) :=
  foreach_incoming_skip s rest hla
    (find_link_type_source_mismatch st la lh i m hpos hmem hne)

/-- Witness for claim C2: in `storeMismatch` the link 2 = (9, 1) has
type 7 but node 1 occupies slot 1, not the requested `sourcePos = 0`;
candidate 2 is examined, yields no visit, and the chase continues. -/
theorem c2_source_position_mismatch_witness :
    chase_out (foreach_incoming storeMismatch
        ⟨7, some 1, none, 0, 1, 0, some cbTrue, none⟩ [2]) =
      ((foreach_incoming storeMismatch
          ⟨7, some 1, none, 0, 1, 0, some cbTrue, none⟩ []).result,
        2 :: (foreach_incoming storeMismatch
          ⟨7, some 1, none, 0, 1, 0, some cbTrue, none⟩ []).examined,
        (foreach_incoming storeMismatch
          ⟨7, some 1, none, 0, 1, 0, some cbTrue, none⟩ []).visits) :=
  c2_source_position_mismatch_skips storeMismatch
    ⟨7, some 1, none, 0, 1, 0, some cbTrue, none⟩ 2 ⟨7, [9, 1], []⟩ [] 0 9
    (by decide) (by decide) (by decide) (by decide) (by decide)

/-- Claim C3 (confirmed): the visitor's boolean is the stop signal of the
outer enumeration.  If every performed visitor invocation returned `false`
the chase returns `false`; if some performed invocation returned `true` the
chase returns `true`; and once the enumeration of a prefix has stopped
early, appending further candidate links changes nothing about the
observable run — they are neither type/position-checked nor visited. -/
theorem c3_early_exit_propagates (s : Store) (st0 st : ChaserState) (h ltype : Nat)
    (pf pt : Int) (cb : Nat → Bool) (pre post : List Nat) :
    ((∀ v ∈ (follow_link s st0 h ltype pf pt cb).2.2, cb v.1 = false) →
      (follow_link s st0 h ltype pf pt cb).1 = false) ∧
    ((∃ v ∈ (follow_link s st0 h ltype pf pt cb).2.2, cb v.1 = true) →
      (follow_link s st0 h ltype pf pt cb).1 = true) ∧
    ((foreach_incoming s st pre).result = true →
      chase_out (foreach_incoming s st (pre ++ post)) =
        chase_out (foreach_incoming s st pre)) := by
  refine ⟨?_, ?_, foreach_incoming_append s pre post st⟩
  · intro hall
    cases hres : (follow_link s st0 h ltype pf pt cb).1 with
    | false => rfl
    | true =>
      obtain ⟨v, hm, ha⟩ := (follow_link_result_iff s st0 h ltype pf pt cb).mp hres
      rw [hall v hm] at ha
      exact ha.symm
  · intro hsome
    exact (follow_link_result_iff s st0 h ltype pf pt cb).mpr hsome

/-- Witness for claim C3: in `storeTwoLinks`, a never-stopping visitor
makes the chase return `false`, a stopping one makes it return `true`, and
after the stop on candidate 10 the appended candidate 11 leaves the
observable run unchanged. -/
theorem c3_early_exit_witness :
    (follow_link storeTwoLinks initState 1 7 0 1 cbFalse).1 = false ∧
    (follow_link storeTwoLinks initState 1 7 0 1 cbTrue).1 = true ∧
    chase_out (foreach_incoming storeTwoLinks
        ⟨7, some 1, none, 0, 1, 0, some cbTrue, none⟩ ([10] ++ [11])) =
      chase_out (foreach_incoming storeTwoLinks
        ⟨7, some 1, none, 0, 1, 0, some cbTrue, none⟩ [10]) :=
  ⟨(c3_early_exit_propagates storeTwoLinks initState initState 1 7 0 1 cbFalse [] []).1
      (fun v _ => rfl),
    (c3_early_exit_propagates storeTwoLinks initState initState 1 7 0 1 cbTrue [] []).2.1
      ⟨(4, 10), by decide, rfl⟩,
    (c3_early_exit_propagates storeTwoLinks initState
        ⟨7, some 1, none, 0, 1, 0, some cbTrue, none⟩ 1 7 0 1 cbTrue [10] [11]).2.2
      (by decide)⟩

/-- Claim C4 (confirmed): an unresolvable start handle, or a start atom
with an empty incoming set, makes the chase return `false` with no visitor
invocation; the embedded functions are total, so no error is raised. -/
theorem c4_unresolvable_or_empty (s : Store) (st0 : ChaserState) (h ltype : Nat)
    (pf pt : Int) (cb : Nat → Bool) (cblh : Nat → Nat → Bool) :
    (s.getAtom h = none →
      follow_link s st0 h ltype pf pt cb = (false, [], []) ∧
      follow_link_lh s st0 h ltype pf pt cblh = (false, [], [])) ∧
    (∀ atom, s.getAtom h = some atom → atom.inc = [] →
      follow_link s st0 h ltype pf pt cb = (false, [], []) ∧
      follow_link_lh s st0 h ltype pf pt cblh = (false, [], [])) := by
  constructor
  · intro hla
    exact ⟨follow_link_none s st0 h ltype pf pt cb hla,
      follow_link_lh_none s st0 h ltype pf pt cblh hla⟩
  · intro atom hla hinc
    constructor
    · rw [follow_link_some s st0 h ltype pf pt cb atom hla, hinc]
      rfl
    · rw [follow_link_lh_some s st0 h ltype pf pt cblh atom hla, hinc]
      rfl

/-- Witness for claim C4: an unresolvable handle in the empty store and an
isolated node with empty incoming set both give `(false, [], [])` in both
callback forms. -/
theorem c4_unresolvable_or_empty_witness :
    (follow_link storeEmpty initState 1 7 0 1 cbTrue = (false, [], []) ∧
      follow_link_lh storeEmpty initState 1 7 0 1 (fun t _ => cbTrue t) = (false, [], [])) ∧
    (follow_link storeIsolated initState 1 7 0 1 cbTrue = (false, [], []) ∧
      follow_link_lh storeIsolated initState 1 7 0 1 (fun t _ => cbTrue t) = (false, [], [])) :=
  ⟨(c4_unresolvable_or_empty storeEmpty initState 1 7 0 1 cbTrue (fun t _ => cbTrue t)).1
      (by decide),
    (c4_unresolvable_or_empty storeIsolated initState 1 7 0 1 cbTrue (fun t _ => cbTrue t)).2
      ⟨5, [], []⟩ (by decide) (by decide)⟩

/-- Claim C5 (confirmed): type filtering is exact.  A candidate link whose
type tag differs from the requested `link_type` is skipped with no visitor
invocation (the enumeration continuing with the remaining candidates), and
every candidate that does trigger the visitor has a type tag exactly equal
to the requested one. -/
theorem c5_exact_type_filtering (s : Store) (st : ChaserState) (lh : Nat) (la : Atom)
    (rest inc : List Nat) (v : Nat × Nat) :
    (s.getAtom lh = some la → la.atype ≠ st.link_type →
      chase_out (foreach_incoming s st (lh :: rest)) =
        ((foreach_incoming s st rest).result,
          lh :: (foreach_incoming s st rest).examined,
          (foreach_incoming s st rest).visits)) ∧
    (v ∈ (foreach_incoming s st inc).visits →
      ∃ la2, s.getAtom v.2 = some la2 ∧ la2.atype = st.link_type) := by
  constructor
  · intro hla hne
    refine foreach_incoming_skip s rest hla ?_
    have hty : st.link_type ≠ la.atype := fun he => hne he.symm
    simp [find_link_type, hty]
  · intro hv
    obtain ⟨_, la2, h2, h3, _⟩ := foreach_incoming_visits_sound s inc st v hv
    exact ⟨la2, h2, h3⟩

/-- Witness for claim C5: in `storeTwoLinks` the type-8 link 11 is skipped
when type 7 is requested, while the visited pair `(4, 10)` comes from the
type-7 link 10. -/
theorem c5_exact_type_filtering_witness :
    chase_out (foreach_incoming storeTwoLinks
        ⟨7, some 1, none, 0, 1, 0, some cbFalse, none⟩ [11]) =
      ((foreach_incoming storeTwoLinks
          ⟨7, some 1, none, 0, 1, 0, some cbFalse, none⟩ []).result,
        11 :: (foreach_incoming storeTwoLinks
          ⟨7, some 1, none, 0, 1, 0, some cbFalse, none⟩ []).examined,
        (foreach_incoming storeTwoLinks
          ⟨7, some 1, none, 0, 1, 0, some cbFalse, none⟩ []).visits) ∧
    ∃ la2, storeTwoLinks.getAtom 10 = some la2 ∧ la2.atype = 7 :=
  ⟨(c5_exact_type_filtering storeTwoLinks
        ⟨7, some 1, none, 0, 1, 0, some cbFalse, none⟩ 11 ⟨8, [1, 4], []⟩ [] [10, 11]
        (4, 10)).1 (by decide) (by decide),
    (c5_exact_type_filtering storeTwoLinks
        ⟨7, some 1, none, 0, 1, 0, some cbFalse, none⟩ 11 ⟨8, [1, 4], []⟩ [] [10, 11]
        (4, 10)).2 (by decide)⟩

/-- Claim C6 (confirmed): the binary wrappers are `follow_link` /
`follow_link_lh` at positions `(0, 1)` (forward) and `(1, 0)` (backward),
and for a binary link `lh = (a, b)` of type `lt2` the forward chase from
`a` reports `b` while the backward chase from `b` reports `a` (with a
never-stopping visitor, so that the enumeration reaches the link). -/
theorem c6_binary_wrapper_symmetry (s : Store) (st0 : ChaserState) (h ltype : Nat)
    (cb : Nat → Bool) (cblh : Nat → Nat → Bool) (lt2 lh a b : Nat)
    (la atomA atomB : Atom) (v : Nat → Bool) :
    follow_binary_link s st0 h ltype cb = follow_link s st0 h ltype 0 1 cb ∧
    follow_binary_link_lh s st0 h ltype cblh = follow_link_lh s st0 h ltype 0 1 cblh ∧
    backtrack_binary_link s st0 h ltype cb = follow_link s st0 h ltype 1 0 cb ∧
    backtrack_binary_link_lh s st0 h ltype cblh = follow_link_lh s st0 h ltype 1 0 cblh ∧
    ((∀ x, v x = false) → s.getAtom lh = some la → la.atype = lt2 → la.out = [a, b] →
      s.getAtom a = some atomA → lh ∈ atomA.inc →
      (b, lh) ∈ (follow_binary_link s st0 a lt2 v).2.2) ∧
    ((∀ x, v x = false) → s.getAtom lh = some la → la.atype = lt2 → la.out = [a, b] →
      s.getAtom b = some atomB → lh ∈ atomB.inc →
      (a, lh) ∈ (backtrack_binary_link s st0 b lt2 v).2.2) := by
  refine ⟨rfl, rfl, rfl, rfl, ?_, ?_⟩
  · intro hv hla hty hout hA hmem
    simp only [follow_binary_link]
    rw [follow_link_some s st0 a lt2 0 1 v atomA hA]
    refine foreach_incoming_mem_visits s atomA.inc
      ⟨lt2, some a, none, 0, 1, st0.cnt, some v, none⟩ lh la b
      (fun x _ => hv x) hmem hla ?_
    simp only [find_link_type]
    rw [if_neg (by simp [hty])]
    rw [hout]
    norm_num [foreach_outgoing, pursue_link]
  · intro hv hla hty hout hB hmem
    simp only [backtrack_binary_link]
    rw [follow_link_some s st0 b lt2 1 0 v atomB hB]
    refine foreach_incoming_mem_visits s atomB.inc
      ⟨lt2, some b, none, 1, 0, st0.cnt, some v, none⟩ lh la a
      (fun x _ => hv x) hmem hla ?_
    simp only [find_link_type]
    rw [if_neg (by simp [hty])]
    rw [hout]
    norm_num [foreach_outgoing, pursue_link]

/-- Witness for claim C6: in `storeBinary` with link 2 = (1, 3) of type 7,
the forward chase from node 1 visits `(3, 2)` and the backward chase from
node 3 visits `(1, 2)`. -/
theorem c6_binary_wrapper_symmetry_witness :
    (3, 2) ∈ (follow_binary_link storeBinary initState 1 7 cbFalse).2.2 ∧
    (1, 2) ∈ (backtrack_binary_link storeBinary initState 3 7 cbFalse).2.2 :=
  ⟨(c6_binary_wrapper_symmetry storeBinary initState 0 0 cbFalse (fun t _ => cbFalse t)
        7 2 1 3 ⟨7, [1, 3], []⟩ ⟨5, [], [2]⟩ ⟨5, [], [2]⟩ cbFalse).2.2.2.2.1
      (fun _ => rfl) (by decide) (by decide) (by decide) (by decide) (by decide),
    (c6_binary_wrapper_symmetry storeBinary initState 0 0 cbFalse (fun t _ => cbFalse t)
        7 2 1 3 ⟨7, [1, 3], []⟩ ⟨5, [], [2]⟩ ⟨5, [], [2]⟩ cbFalse).2.2.2.2.2
      (fun _ => rfl) (by decide) (by decide) (by decide) (by decide) (by decide)⟩

/-- Claim C7 (confirmed): on identical inputs, the link-aware variant with
the visitor `fun t _ => cb t` produces exactly the same observable run as
`follow_link` with `cb` — the same boolean result, the same examined
candidates and the same `(target, link)` invocation sequence — and each
invocation's second component is the handle of the matching incoming link
of the requested type from whose `position_to` member the target was
taken. -/
theorem c7_lh_variant_consistency (s : Store) (st0 : ChaserState) (h ltype : Nat)
    (pf pt : Int) (cb : Nat → Bool) (v : Nat × Nat) (atom : Atom) :
    follow_link_lh s st0 h ltype pf pt (fun t _ => cb t) =
      follow_link s st0 h ltype pf pt cb ∧
    (s.getAtom h = some atom →
      v ∈ (follow_link_lh s st0 h ltype pf pt (fun t _ => cb t)).2.2 →
      v.2 ∈ atom.inc ∧ ∃ la, s.getAtom v.2 = some la ∧ la.atype = ltype ∧
        ∃ i : Nat, pt = (i : Int) ∧ la.out.get? i = some v.1) := by
  constructor
  · cases hla : s.getAtom h with
    | none =>
      rw [follow_link_none s st0 h ltype pf pt cb hla,
        follow_link_lh_none s st0 h ltype pf pt (fun t _ => cb t) hla]
    | some atom2 =>
      rw [follow_link_some s st0 h ltype pf pt cb atom2 hla,
        follow_link_lh_some s st0 h ltype pf pt (fun t _ => cb t) atom2 hla]
      exact foreach_incoming_congr s atom2.inc rfl rfl rfl rfl (fun t l => rfl)
  · intro hla hv
    rw [follow_link_lh_some s st0 h ltype pf pt (fun t _ => cb t) atom hla] at hv
    obtain ⟨h1, la, h2, h3, i, h4, h5⟩ :=
      foreach_incoming_visits_sound s atom.inc _ v hv
    exact ⟨h1, la, h2, h3, i, h4, h5⟩

/-- Witness for claim C7: in `storeBinary` both variants produce the same
run, and the recorded invocation `(3, 2)` names the matching link 2. -/
theorem c7_lh_variant_consistency_witness :
    follow_link_lh storeBinary initState 1 7 0 1 (fun t _ => cbTrue t) =
      follow_link storeBinary initState 1 7 0 1 cbTrue ∧
    ((2 : Nat) ∈ [2] ∧ ∃ la, storeBinary.getAtom 2 = some la ∧ la.atype = 7 ∧
      ∃ i : Nat, (1 : Int) = (i : Int) ∧ la.out.get? i = some 3) :=
  ⟨(c7_lh_variant_consistency storeBinary initState 1 7 0 1 cbTrue (3, 2)
      ⟨5, [], [2]⟩).1,
    (c7_lh_variant_consistency storeBinary initState 1 7 0 1 cbTrue (3, 2)
      ⟨5, [], [2]⟩).2 (by decide) (by decide)⟩

/-- Claim C8 (confirmed): whenever the visitor is invoked, in either
callback form, the candidate link that produced the invocation lies in
the start atom's incoming set, its type tag equals the requested
`link_type` exactly, the target passed to the visitor is the member at
index `position_to` of that link's outgoing set, and the second component
of the recorded invocation is the handle of that same link — with no
assumption that the source-position identity check was reached. -/
theorem c8_visit_invariant (s : Store) (st0 : ChaserState) (h ltype : Nat)
    (pf pt : Int) (cb : Nat → Bool) (cblh : Nat → Nat → Bool) (atom : Atom)
    (v w : Nat × Nat) :
    (s.getAtom h = some atom → v ∈ (follow_link s st0 h ltype pf pt cb).2.2 →
      v.2 ∈ atom.inc ∧ ∃ la, s.getAtom v.2 = some la ∧ la.atype = ltype ∧
        ∃ i : Nat, pt = (i : Int) ∧ la.out.get? i = some v.1) ∧
    (s.getAtom h = some atom → w ∈ (follow_link_lh s st0 h ltype pf pt cblh).2.2 →
      w.2 ∈ atom.inc ∧ ∃ la, s.getAtom w.2 = some la ∧ la.atype = ltype ∧
        ∃ i : Nat, pt = (i : Int) ∧ la.out.get? i = some w.1) := by
  constructor
  · intro hla hv
    rw [follow_link_some s st0 h ltype pf pt cb atom hla] at hv
    obtain ⟨h1, la, h2, h3, i, h4, h5⟩ :=
      foreach_incoming_visits_sound s atom.inc _ v hv
    exact ⟨h1, la, h2, h3, i, h4, h5⟩
  · intro hla hw
    rw [follow_link_lh_some s st0 h ltype pf pt cblh atom hla] at hw
    obtain ⟨h1, la, h2, h3, i, h4, h5⟩ :=
      foreach_incoming_visits_sound s atom.inc _ w hw
    exact ⟨h1, la, h2, h3, i, h4, h5⟩

/-- Witness for claim C8: the invocations `(3, 2)` of the plain and the
link-aware chase over `storeBinary` both come from link 2, of type 7, with
target `3` the member at index 1 of its outgoing set `[1, 3]`. -/
theorem c8_visit_invariant_witness :
    ((2 : Nat) ∈ [2] ∧ ∃ la, storeBinary.getAtom 2 = some la ∧ la.atype = 7 ∧
      ∃ i : Nat, (1 : Int) = (i : Int) ∧ la.out.get? i = some 3) ∧
    ((2 : Nat) ∈ [2] ∧ ∃ la, storeBinary.getAtom 2 = some la ∧ la.atype = 7 ∧
      ∃ i : Nat, (1 : Int) = (i : Int) ∧ la.out.get? i = some 3) :=
  ⟨(c8_visit_invariant storeBinary initState 1 7 0 1 cbTrue (fun t _ => cbTrue t)
        ⟨5, [], [2]⟩ (3, 2) (3, 2)).1 (by decide) (by decide),
    (c8_visit_invariant storeBinary initState 1 7 0 1 cbTrue (fun t _ => cbTrue t)
        ⟨5, [], [2]⟩ (3, 2) (3, 2)).2 (by decide) (by decide)⟩

/-- Claim C9 (confirmed): with `sourcePos = targetPos` the visitor is never
invoked and the chase returns `false`, in both callback forms: at the shared
index the source-identity branch of `pursue_link` runs first and returns
(clearing the target and aborting on a mismatch), so no target is ever
captured for any candidate link. -/
theorem c9_degenerate_equal_positions (s : Store) (st0 : ChaserState) (h ltype : Nat)
    (p : Int) (cb : Nat → Bool) (cblh : Nat → Nat → Bool) :
    (follow_link s st0 h ltype p p cb).1 = false ∧
    (follow_link s st0 h ltype p p cb).2.2 = [] ∧
    (follow_link_lh s st0 h ltype p p cblh).1 = false ∧
    (follow_link_lh s st0 h ltype p p cblh).2.2 = [] := by
  cases hla : s.getAtom h with
  | none =>
    rw [follow_link_none s st0 h ltype p p cb hla,
      follow_link_lh_none s st0 h ltype p p cblh hla]
    exact ⟨rfl, rfl, rfl, rfl⟩
  | some atom =>
    rw [follow_link_some s st0 h ltype p p cb atom hla,
      follow_link_lh_some s st0 h ltype p p cblh atom hla]
    obtain ⟨r1, v1⟩ := foreach_incoming_degenerate s atom.inc
      ⟨ltype, some h, none, p, p, st0.cnt, some cb, none⟩ rfl
    obtain ⟨r2, v2⟩ := foreach_incoming_degenerate s atom.inc
      ⟨ltype, some h, none, p, p, st0.cnt, none, some cblh⟩ rfl
    exact ⟨r1, v1, r2, v2⟩

/-- Claim C10 (confirmed): the observable run of `follow_link` and
`follow_link_lh` — the returned boolean together with the sequences of
examined candidates and visitor invocations — does not depend on the values
left in the chaser's member fields by earlier calls: every consulted field
is rewritten at call entry or reset per candidate link before use.  (In
this functional embedding a run's determinism for fixed arguments is
definitional; the content is the independence from the initial state.) -/
theorem c10_no_state_leakage (s : Store) (st0 st1 : ChaserState) (h ltype : Nat)
    (pf pt : Int) (cb : Nat → Bool) (cblh : Nat → Nat → Bool) :
    follow_link s st0 h ltype pf pt cb = follow_link s st1 h ltype pf pt cb ∧
    follow_link_lh s st0 h ltype pf pt cblh = follow_link_lh s st1 h ltype pf pt cblh := by
  constructor
  · cases hla : s.getAtom h with
    | none =>
      rw [follow_link_none s st0 h ltype pf pt cb hla,
        follow_link_none s st1 h ltype pf pt cb hla]
    | some atom =>
      rw [follow_link_some s st0 h ltype pf pt cb atom hla,
        follow_link_some s st1 h ltype pf pt cb atom hla]
      exact foreach_incoming_congr s atom.inc rfl rfl rfl rfl (fun t l => rfl)
  · cases hla : s.getAtom h with
    | none =>
      rw [follow_link_lh_none s st0 h ltype pf pt cblh hla,
        follow_link_lh_none s st1 h ltype pf pt cblh hla]
    | some atom =>
      rw [follow_link_lh_some s st0 h ltype pf pt cblh atom hla,
        follow_link_lh_some s st1 h ltype pf pt cblh atom hla]
      exact foreach_incoming_congr s atom.inc rfl rfl rfl rfl (fun t l => rfl)
